import Mathlib

/-!
Verification development for the trading state synchronization and
order-execution engine of `examples/web_trading_client.py` (with its
feed gateway `connect_to_market` / `handle_market_message` and session
lifecycle `websocket_endpoint`).

Python dictionaries are embedded as association lists with unique keys
(`Dict`), Python floats (prices, cash) as rationals `ℚ`, Python ints
(quantities) as `ℤ`.  Exceptions are embedded as `Option`/explicit
outcome constructors.  Network sends are collected into explicit
message lists; the websocket objects themselves carry no data relevant
to the engine and are dropped.
-/

/-- Association-list embedding of a Python `dict` keyed by strings. -/
abbrev Dict (α : Type) := List (String × α)

/-- `m[k]` lookup returning `none` when the key is absent (Python raises
`KeyError`; callers model that explicitly). -/
def dget? {α : Type} : Dict α → String → Option α
  | [], _ => none
  | (k', v) :: rest, k => if k' = k then some v else dget? rest k

/-- `m.get(k, d)`-style lookup with a default. -/
def dgetD {α : Type} (m : Dict α) (k : String) (d : α) : α :=
  (dget? m k).getD d

/-- `m[k] = v`: overwrite the first binding of `k`, or append a new one
(Python dict insertion order). -/
def dset {α : Type} : Dict α → String → α → Dict α
  | [], k, v => [(k, v)]
  | (k', v') :: rest, k, v =>
      if k' = k then (k', v) :: rest else (k', v') :: dset rest k v

/-- `del m[k]`: drop the first binding of `k`. -/
def ddel {α : Type} : Dict α → String → Dict α
  | [], _ => []
  | (k', v') :: rest, k => if k' = k then rest else (k', v') :: ddel rest k

/-! ## Data model (class `TradingState`, per-client portfolios) -/

/-- One client's ledger: `state.portfolios[client_id]`, a dict
`{"cash": float, "holdings": dict}` in the source. -/
structure Portfolio where
  cash : ℚ
  holdings : Dict ℤ
deriving DecidableEq, Repr

/-- The global mutable state of the web trading client (class
`TradingState`): price table, per-client portfolios, market-open flag
and the ids of connected client transports.  The asyncio lock and the
upstream websocket handle carry no data and are modelled by the
sequential semantics / explicit parameters. -/
structure TradingState where
  prices : Dict ℚ
  portfolios : Dict Portfolio
  market_open : Bool
  connected_clients : List String
deriving DecidableEq, Repr

/-- An order message from a client: `{"action","symbol","quantity"}`. -/
structure Order where
  action : String
  symbol : String
  quantity : ℤ
deriving DecidableEq, Repr

/-- A JSON message sent to a client websocket. -/
inductive ClientMsg where
  | error (message : String)
  | order_confirmation (action symbol : String) (quantity : ℤ) (price : ℚ)
  | state_update (portfolio : Dict ℤ) (cash : ℚ) (prices : Dict ℚ)
      (market_open : Bool)
  | price_update (symbol : String) (price : ℚ)
  | market_open_update (market_open : Bool)
deriving DecidableEq, Repr

/-- `send_state_update(websocket, client_id)`: reads
`state.portfolios[client_id]` under the lock and sends the full state;
`none` models the `KeyError` when the client id is unknown. -/
def send_state_update (s : TradingState) (cid : String) : Option ClientMsg :=
  (dget? s.portfolios cid).map fun pf =>
    ClientMsg.state_update pf.holdings pf.cash s.prices s.market_open

/-- `process_order(websocket, client_id, order)`: validate and apply one
order under the state lock, then send a trailing full state update.
Returns the new state and the list of messages sent to this client, in
send order; `none` models the `KeyError` raised when `client_id` is not
in `state.portfolios`.  The `order_placed` relay to the market server
(`send_order_to_market`) goes to the upstream socket, not to the
client, and is modelled separately by the event-trace semantics. -/
def process_order (s : TradingState) (cid : String) (o : Order) :
    Option (TradingState × List ClientMsg) := do
  let pf ← dget? s.portfolios cid
  match dget? s.prices o.symbol with
  | none =>
      -- `if symbol not in state.prices: send error; return` — the early
      -- return skips the trailing send_state_update.
      return (s, [ClientMsg.error ("Unknown symbol: " ++ o.symbol)])
  | some price =>
      if o.action = "buy" then
        let cost := price * (o.quantity : ℚ)
        if cost ≤ pf.cash then
          let h0 :=
            if (dget? pf.holdings o.symbol).isNone
            then dset pf.holdings o.symbol 0 else pf.holdings
          let h1 := dset h0 o.symbol (dgetD h0 o.symbol 0 + o.quantity)
          let pf' : Portfolio := ⟨pf.cash - cost, h1⟩
          let s' := { s with portfolios := dset s.portfolios cid pf' }
          let upd ← send_state_update s' cid
          return (s',
            [ClientMsg.order_confirmation "buy" o.symbol o.quantity price,
             upd])
        else
          let upd ← send_state_update s cid
          return (s, [ClientMsg.error "Insufficient funds", upd])
      else if o.action = "sell" then
        match dget? pf.holdings o.symbol with
        | some held =>
            if o.quantity ≤ held then
              let h1 := dset pf.holdings o.symbol (held - o.quantity)
              let h2 :=
                if dgetD h1 o.symbol 0 = 0 then ddel h1 o.symbol else h1
              let pf' : Portfolio :=
                ⟨pf.cash + price * (o.quantity : ℚ), h2⟩
              let s' := { s with portfolios := dset s.portfolios cid pf' }
              let upd ← send_state_update s' cid
              return (s',
                [ClientMsg.order_confirmation "sell" o.symbol o.quantity price,
                 upd])
            else
              let upd ← send_state_update s cid
              return (s, [ClientMsg.error "Insufficient shares", upd])
        | none =>
            let upd ← send_state_update s cid
            return (s, [ClientMsg.error "Insufficient shares", upd])
      else
        -- action neither "buy" nor "sell": the if/elif falls through,
        -- nothing is sent inside the lock, only the trailing update.
        let upd ← send_state_update s cid
        return (s, [upd])

/-- Did the engine send an order confirmation? -/
def isConfirmed (msgs : List ClientMsg) : Bool :=
  msgs.any fun m =>
    match m with
    | ClientMsg.order_confirmation _ _ _ _ => true
    | _ => false

/-- Did the engine send an error (rejection) message? -/
def hasError (msgs : List ClientMsg) : Bool :=
  msgs.any fun m =>
    match m with
    | ClientMsg.error _ => true
    | _ => false

/-- The confirmed trades reported in a message list, as
(action, symbol, quantity, execution price). -/
def confirmations (msgs : List ClientMsg) : List (String × String × ℤ × ℚ) :=
  msgs.filterMap fun m =>
    match m with
    | ClientMsg.order_confirmation a sym q p => some (a, sym, q, p)
    | _ => none

/-- Sum of execution-time notionals of confirmed trades, signed positive
for buys (holdings acquired) and negative for sells (holdings released). -/
def signed_notional_sum : List (String × String × ℤ × ℚ) → ℚ
  | [] => 0
  | t :: ts =>
      (if t.1 = "buy" then t.2.2.2 * (t.2.2.1 : ℚ)
       else -(t.2.2.2 * (t.2.2.1 : ℚ))) + signed_notional_sum ts

/-- Sum of execution-time notionals under the opposite sign convention:
positive for sells and negative for buys. -/
def claim_notional_sum : List (String × String × ℤ × ℚ) → ℚ
  | [] => 0
  | t :: ts =>
      (if t.1 = "buy" then -(t.2.2.2 * (t.2.2.1 : ℚ))
       else t.2.2.2 * (t.2.2.1 : ℚ)) + claim_notional_sum ts

/-- Run a finite sequence of orders from one session through
`process_order`, accumulating every message sent to that client.  A
`KeyError` (unknown client) ends the session's receive loop, so no
further orders are processed. -/
def run_orders (s : TradingState) (cid : String) :
    List Order → TradingState × List ClientMsg
  | [] => (s, [])
  | o :: os =>
      match process_order s cid o with
      | none => (s, [])
      | some (s', msgs) =>
          let r := run_orders s' cid os
          (r.1, msgs ++ r.2)

/-! ## Session lifecycle (`websocket_endpoint`) -/

/-- Connection setup in `websocket_endpoint`: store the transport in
`state.connected_clients` and initialise a portfolio with cash 10000.0
and empty holdings when the client id has none. -/
def websocket_connect (s : TradingState) (cid : String) : TradingState :=
  let s1 := { s with connected_clients :=
      if cid ∈ s.connected_clients then s.connected_clients
      else s.connected_clients ++ [cid] }
  if (dget? s1.portfolios cid).isSome then s1
  else { s1 with portfolios := dset s1.portfolios cid ⟨10000, []⟩ }

/-- The `WebSocketDisconnect` handler in `websocket_endpoint`:
`del state.connected_clients[client_id]` — and nothing else. -/
def websocket_disconnect (s : TradingState) (cid : String) : TradingState :=
  { s with connected_clients := s.connected_clients.erase cid }

/-! ## Feed gateway (`handle_market_message`, `connect_to_market`) -/

/-- JSON values, as produced by `json.loads`. -/
inductive Json where
  | jnull
  | jbool (b : Bool)
  | jnum (q : ℚ)
  | jstr (s : String)
  | jarr (xs : List Json)
  | jobj (fields : List (String × Json))

/-- Python `==` between a decoded JSON value and a string literal:
true exactly for the equal string, false for every other value. -/
def jeqStr (j : Json) (lit : String) : Bool :=
  match j with
  | Json.jstr s => s = lit
  | _ => false

/-- `data[k]` on a decoded JSON value: `KeyError` when the field is
missing, `TypeError` when the value is not an object. -/
def jget (j : Json) (k : String) : Except String Json :=
  match j with
  | Json.jobj fs =>
      match dget? fs k with
      | some v => Except.ok v
      | none => Except.error ("KeyError: " ++ k)
  | _ => Except.error "TypeError: not an object"

/-- Outcome of `handle_market_message` for one inbound feed message. -/
inductive FeedResult where
  /-- Returned normally; carries the broadcast sent to all clients. -/
  | handled (broadcast : List ClientMsg)
  /-- `json.JSONDecodeError` caught by the handler: logged and dropped. -/
  | dropped_parse_error
  /-- An exception other than `JSONDecodeError` escaped the handler. -/
  | raised (e : String)
  /-- A `price_update` whose symbol is not a string or whose price is
  not a number; its dictionary write is outside this embedding. -/
  | unmodelled
deriving DecidableEq, Repr

/-- `handle_market_message(message)`: `none` stands for a message
`json.loads` rejects; otherwise the decoded JSON value.  Returns the
post-state and the outcome.  Only `json.JSONDecodeError` is caught;
`data["type"]` etc. raise through. -/
def handle_market_message (s : TradingState) (msg : Option Json) :
    TradingState × FeedResult :=
  match msg with
  | none => (s, FeedResult.dropped_parse_error)
  | some data =>
      match jget data "type" with
      | Except.error e => (s, FeedResult.raised e)
      | Except.ok t =>
          if jeqStr t "market_open" then
            ({ s with market_open := true },
             FeedResult.handled [ClientMsg.market_open_update true])
          else if jeqStr t "market_close" then
            ({ s with market_open := false },
             FeedResult.handled [ClientMsg.market_open_update false])
          else if jeqStr t "price_update" then
            match jget data "symbol" with
            | Except.error e => (s, FeedResult.raised e)
            | Except.ok symJ =>
                match jget data "price" with
                | Except.error e => (s, FeedResult.raised e)
                | Except.ok priceJ =>
                    match symJ, priceJ with
                    | Json.jstr sym, Json.jnum p =>
                        ({ s with prices := dset s.prices sym p },
                         FeedResult.handled [ClientMsg.price_update sym p])
                    | _, _ => (s, FeedResult.unmodelled)
          else
            (s, FeedResult.handled [])

/-- What the `connect_to_market` loop does next, given the handler's
outcome for the last message. -/
inductive GatewayReaction where
  /-- Stay in the `async for` receive loop on the same connection. -/
  | keep_connection
  /-- The connection is torn down and re-established after a delay. -/
  | drop_and_reconnect
deriving DecidableEq, Repr

/-- Control flow of `connect_to_market`: an exception escaping
`handle_market_message` leaves the `async for` loop and the connection
context (it is not a `ConnectionClosed`, so only the outer
`except Exception` catches it), which sets `market_ws = None`, sleeps
5 s and retries; any non-raising outcome keeps the connection. -/
def connect_to_market_reaction : FeedResult → GatewayReaction
  | FeedResult.raised _ => GatewayReaction.drop_and_reconnect
  | _ => GatewayReaction.keep_connection

/-! ## Lock/send event traces (for the atomicity discipline) -/

/-- Primitive events of one handler invocation, in program order:
acquiring/releasing `state.lock`, mutating the shared state, and
issuing a network send (to the client or upstream). -/
inductive Ev where
  | acquire
  | release
  | mutate
  | sendClient
  | sendUpstream
deriving DecidableEq, Repr

/-- The trailing `send_state_update`: a second lock region whose send
happens inside it. -/
def state_update_events : List Ev :=
  [Ev.acquire, Ev.sendClient, Ev.release]

/-- Event trace of `process_order`.  `mws` tells whether the upstream
market websocket is connected (`send_order_to_market` only sends then).
The `with state.lock` block releases the lock on every exit, including
the early `return` and a raised `KeyError`. -/
def process_order_events (s : TradingState) (cid : String) (o : Order)
    (mws : Bool) : List Ev :=
  match dget? s.portfolios cid with
  | none => [Ev.acquire, Ev.release]
  | some pf =>
      match dget? s.prices o.symbol with
      | none => [Ev.acquire, Ev.sendClient, Ev.release]
      | some price =>
          if o.action = "buy" then
            if price * (o.quantity : ℚ) ≤ pf.cash then
              [Ev.acquire, Ev.mutate, Ev.sendClient] ++
                (if mws then [Ev.sendUpstream] else []) ++
                [Ev.release] ++ state_update_events
            else
              [Ev.acquire, Ev.sendClient, Ev.release] ++ state_update_events
          else if o.action = "sell" then
            if (dget? pf.holdings o.symbol).isSome ∧
                o.quantity ≤ dgetD pf.holdings o.symbol 0 then
              [Ev.acquire, Ev.mutate, Ev.sendClient] ++
                (if mws then [Ev.sendUpstream] else []) ++
                [Ev.release] ++ state_update_events
            else
              [Ev.acquire, Ev.sendClient, Ev.release] ++ state_update_events
          else
            [Ev.acquire, Ev.release] ++ state_update_events

/-- Event trace of `handle_market_message`: everything it does —
including the broadcast — happens inside one `async with state.lock`
region; a raised lookup error still releases the lock on unwind.  A
parse failure never touches the lock.  Which branch runs depends only
on the message, so the state is not a parameter. -/
def handle_market_message_events (msg : Option Json) :
    List Ev :=
  match msg with
  | none => []
  | some data =>
      match jget data "type" with
      | Except.error _ => [Ev.acquire, Ev.release]
      | Except.ok t =>
          if jeqStr t "market_open" || jeqStr t "market_close" then
            [Ev.acquire, Ev.mutate, Ev.sendClient, Ev.release]
          else if jeqStr t "price_update" then
            match jget data "symbol", jget data "price" with
            | Except.error _, _ => [Ev.acquire, Ev.release]
            | Except.ok _, Except.error _ => [Ev.acquire, Ev.release]
            | Except.ok _, Except.ok _ =>
                [Ev.acquire, Ev.mutate, Ev.sendClient, Ev.release]
          else
            [Ev.acquire, Ev.release]

/-- The observable outcome of an order, forgetting message payloads:
the resulting ledgers and price table, whether a confirmation was sent
and whether a rejection was sent. -/
def order_outcome (r : Option (TradingState × List ClientMsg)) :
    Option (Dict Portfolio × Dict ℚ × Bool × Bool) :=
  r.map fun p => (p.1.portfolios, p.1.prices, isConfirmed p.2, hasError p.2)

/-- The cash balance of a session in a state (0 when unregistered). -/
def final_cash (s : TradingState) (cid : String) : ℚ :=
  match dget? s.portfolios cid with
  | some pf => pf.cash
  | none => 0

/-- A concrete running state: one priced symbol, one session `"c"` with
the default 10000.0 cash and no holdings, market open. -/
def demoState : TradingState :=
  ⟨[("AAPL", 150)], [("c", ⟨10000, []⟩)], true, ["c"]⟩

/-- The process-start state: nothing priced, nobody connected. -/
def initState : TradingState := ⟨[], [], false, []⟩

/-- With `d` locks currently held, does some send event occur while at
least one lock is held? -/
def anySendLocked : List Ev → ℕ → Bool
  | [], _ => false
  | Ev.acquire :: t, d => anySendLocked t (d + 1)
  | Ev.release :: t, d => anySendLocked t (d - 1)
  | Ev.mutate :: t, d => anySendLocked t d
  | Ev.sendClient :: t, d => decide (0 < d) || anySendLocked t d
  | Ev.sendUpstream :: t, d => decide (0 < d) || anySendLocked t d

/-- With `d` locks currently held, does every mutation of the shared
state occur while at least one lock is held? -/
def mutationsLocked : List Ev → ℕ → Bool
  | [], _ => true
  | Ev.acquire :: t, d => mutationsLocked t (d + 1)
  | Ev.release :: t, d => mutationsLocked t (d - 1)
  | Ev.mutate :: t, d => decide (0 < d) && mutationsLocked t d
  | Ev.sendClient :: t, d => mutationsLocked t d
  | Ev.sendUpstream :: t, d => mutationsLocked t d

/-- With `d` locks currently held, does every send event occur while at
least one lock is held? -/
def sendsLocked : List Ev → ℕ → Bool
  | [], _ => true
  | Ev.acquire :: t, d => sendsLocked t (d + 1)
  | Ev.release :: t, d => sendsLocked t (d - 1)
  | Ev.mutate :: t, d => sendsLocked t d
  | Ev.sendClient :: t, d => decide (0 < d) && sendsLocked t d
  | Ev.sendUpstream :: t, d => decide (0 < d) && sendsLocked t d


/-! ## Claim theorems -/

attribute [local semireducible] Rat.add Rat.sub Rat.mul Rat.inv

@[simp] theorem dget_dset_same {α : Type} (m : Dict α) (k : String) (v : α) :
    dget? (dset m k v) k = some v := by
  induction m with
  | nil => simp [dset, dget?]
  | cons hd tl ih =>
      obtain ⟨k', v'⟩ := hd
      by_cases h : k' = k <;> simp [dset, dget?, h, ih]

@[simp] theorem dget_dset_other {α : Type} (m : Dict α) (k k' : String) (v : α)
    (hne : k ≠ k') : dget? (dset m k v) k' = dget? m k' := by
  induction m with
  | nil => simp [dset, dget?, hne]
  | cons hd tl ih =>
      obtain ⟨k₀, v₀⟩ := hd
      by_cases h : k₀ = k
      · subst h; simp [dset, dget?, hne]
      · simp only [dset, if_neg h]
        by_cases h' : k₀ = k' <;> simp [dget?, h', ih]

theorem dget_eq_none_of_not_mem {α : Type} (m : Dict α) (k : String)
    (h : k ∉ m.map Prod.fst) : dget? m k = none := by
  induction m with
  | nil => simp [dget?]
  | cons hd tl ih =>
      obtain ⟨k₀, v₀⟩ := hd
      simp only [List.map_cons, List.mem_cons, not_or] at h
      have hne : k₀ ≠ k := fun hk => h.1 hk.symm
      simp [dget?, hne, ih h.2]

theorem dget_ddel_same {α : Type} (m : Dict α) (k : String)
    (hnd : (m.map Prod.fst).Nodup) : dget? (ddel m k) k = none := by
  induction m with
  | nil => simp [ddel, dget?]
  | cons hd tl ih =>
      obtain ⟨k₀, v₀⟩ := hd
      simp only [List.map_cons, List.nodup_cons] at hnd
      by_cases h : k₀ = k
      · subst h
        simp only [ddel, if_pos rfl]
        exact dget_eq_none_of_not_mem tl k₀ hnd.1
      · simp [ddel, h, dget?, ih hnd.2]


theorem mem_keys_dset {α : Type} (m : Dict α) (k x : String) (v : α) :
    x ∈ (dset m k v).map Prod.fst ↔ x = k ∨ x ∈ m.map Prod.fst := by
  induction m with
  | nil => simp [dset]
  | cons hd tl ih =>
      obtain ⟨k₀, v₀⟩ := hd
      by_cases h : k₀ = k
      · subst h
        simp [dset]
      · simp [dset, h, ih]
        tauto

theorem nodup_keys_dset {α : Type} (m : Dict α) (k : String) (v : α)
    (h : (m.map Prod.fst).Nodup) : ((dset m k v).map Prod.fst).Nodup := by
  induction m with
  | nil => simp [dset]
  | cons hd tl ih =>
      obtain ⟨k₀, v₀⟩ := hd
      simp only [List.map_cons, List.nodup_cons] at h
      by_cases hk : k₀ = k
      · subst hk
        rw [show dset ((k₀, v₀) :: tl) k₀ v = (k₀, v) :: tl from by
          simp [dset]]
        simp only [List.map_cons, List.nodup_cons]
        exact h
      · simp only [dset, if_neg hk, List.map_cons, List.nodup_cons]
        refine ⟨?_, ih h.2⟩
        rw [mem_keys_dset]
        rintro (rfl | hmem)
        · exact hk rfl
        · exact h.1 hmem

/-- The successful-buy branch of `process_order`, characterized: the
client's portfolio is replaced by one whose cash dropped by the cost
and whose holding in the symbol rose by the quantity, and the client
receives the confirmation followed by the trailing state update. -/
theorem process_order_buy_success (s : TradingState) (cid : String)
    (o : Order) (pf : Portfolio) (price : ℚ)
    (hpf : dget? s.portfolios cid = some pf)
    (hp : dget? s.prices o.symbol = some price)
    (hb : o.action = "buy")
    (hc : price * (o.quantity : ℚ) ≤ pf.cash) :
    ∃ pf', process_order s cid o =
        some ({ s with portfolios := dset s.portfolios cid pf' },
          [ClientMsg.order_confirmation "buy" o.symbol o.quantity price,
           ClientMsg.state_update pf'.holdings pf'.cash s.prices
             s.market_open]) ∧
      pf'.cash = pf.cash - price * (o.quantity : ℚ) ∧
      dgetD pf'.holdings o.symbol 0 =
        dgetD pf.holdings o.symbol 0 + o.quantity := by
  refine ⟨⟨pf.cash - price * (o.quantity : ℚ),
      dset (if (dget? pf.holdings o.symbol).isNone
            then dset pf.holdings o.symbol 0 else pf.holdings) o.symbol
        (dgetD (if (dget? pf.holdings o.symbol).isNone
                then dset pf.holdings o.symbol 0 else pf.holdings)
          o.symbol 0 + o.quantity)⟩, ?_, rfl, ?_⟩
  · simp [process_order, hpf, hp, hb, hc, send_state_update]
  · cases hh : dget? pf.holdings o.symbol with
    | none => simp [hh, dgetD]
    | some v => simp [hh, dgetD]

/-- The successful-sell branch of `process_order`, characterized: cash
rises by the proceeds and the holding drops by the quantity (the
readout through the optional removal of a zero entry needs the Python
dict's unique keys, so that part is conditional on them). -/
theorem process_order_sell_success (s : TradingState) (cid : String)
    (o : Order) (pf : Portfolio) (price : ℚ) (held : ℤ)
    (hpf : dget? s.portfolios cid = some pf)
    (hp : dget? s.prices o.symbol = some price)
    (hs : o.action = "sell")
    (hh : dget? pf.holdings o.symbol = some held)
    (hq : o.quantity ≤ held) :
    ∃ pf', process_order s cid o =
        some ({ s with portfolios := dset s.portfolios cid pf' },
          [ClientMsg.order_confirmation "sell" o.symbol o.quantity price,
           ClientMsg.state_update pf'.holdings pf'.cash s.prices
             s.market_open]) ∧
      pf'.cash = pf.cash + price * (o.quantity : ℚ) ∧
      ((pf.holdings.map Prod.fst).Nodup →
        dgetD pf'.holdings o.symbol 0 = held - o.quantity) := by
  refine ⟨⟨pf.cash + price * (o.quantity : ℚ),
      if dgetD (dset pf.holdings o.symbol (held - o.quantity)) o.symbol 0 = 0
      then ddel (dset pf.holdings o.symbol (held - o.quantity)) o.symbol
      else dset pf.holdings o.symbol (held - o.quantity)⟩, ?_, rfl, ?_⟩
  · simp [process_order, hpf, hp, hs, hh, hq, send_state_update]
  · intro hnd
    by_cases hz : held - o.quantity = 0
    · have hcond :
          dgetD (dset pf.holdings o.symbol (held - o.quantity)) o.symbol 0
            = 0 := by
        simp [dgetD, hz]
      rw [if_pos hcond]
      simp [dgetD, dget_ddel_same _ _ (nodup_keys_dset _ _ _ hnd), hz]
    · simp [dgetD, hz]

/-- C1 counterexample: `process_order` never consults
`state.market_open`.  With the market-open flag false, a priced symbol
and sufficient funds, the order is CONFIRMED and the ledger mutates
(cash 10000 → 8500, ten AAPL acquired) — no `MarketClosed` rejection
exists anywhere in the engine. -/
theorem C1_counterexample :
    process_order ⟨[("AAPL", 150)], [("c", ⟨10000, []⟩)], false, ["c"]⟩ "c"
        ⟨"buy", "AAPL", 10⟩ =
      some (⟨[("AAPL", 150)], [("c", ⟨8500, [("AAPL", 10)]⟩)], false, ["c"]⟩,
        [ClientMsg.order_confirmation "buy" "AAPL" 10 150,
         ClientMsg.state_update [("AAPL", 10)] 8500 [("AAPL", 150)] false]) := by
  decide

/-- C1 amended: `process_order` ignores the market-open flag entirely:
the confirmation/rejection outcome and the resulting portfolios and
price table are identical whatever the flag's value; orders submitted
while the market is closed are processed exactly as when it is open. -/
theorem C1_market_flag_irrelevant (s : TradingState) (cid : String)
    (o : Order) (b : Bool) :
    order_outcome (process_order { s with market_open := b } cid o) =
      order_outcome (process_order s cid o) := by
  obtain ⟨pr, pfs, mo, cc⟩ := s
  cases hpf : dget? pfs cid with
  | none => simp [process_order, hpf, order_outcome]
  | some pf =>
      cases hp : dget? pr o.symbol with
      | none => simp [process_order, hpf, hp, order_outcome]
      | some price =>
          by_cases hb : o.action = "buy"
          · by_cases hc : price * (o.quantity : ℚ) ≤ pf.cash <;>
              simp [process_order, hpf, hp, hb, hc, send_state_update,
                order_outcome, isConfirmed, hasError]
          · by_cases hs : o.action = "sell"
            · cases hh : dget? pf.holdings o.symbol with
              | none =>
                  simp [process_order, hpf, hp, hb, hs, hh,
                    send_state_update, order_outcome, isConfirmed, hasError]
              | some held =>
                  by_cases hq : o.quantity ≤ held <;>
                    simp [process_order, hpf, hp, hb, hs, hh, hq,
                      send_state_update, order_outcome, isConfirmed, hasError]
            · simp [process_order, hpf, hp, hb, hs, send_state_update,
                order_outcome, isConfirmed, hasError]

/-- C10: an order message whose action is neither "buy" nor "sell"
(with a registered client and a priced symbol) falls through the
if/elif: the session gets neither a confirmation nor an error, the
state is unchanged, and the only reply is the unconditional trailing
full state update. -/
theorem C10_unknown_action (s : TradingState) (cid : String) (o : Order)
    (pf : Portfolio)
    (hpf : dget? s.portfolios cid = some pf)
    (hp : (dget? s.prices o.symbol).isSome)
    (hb : o.action ≠ "buy") (hs : o.action ≠ "sell") :
    process_order s cid o =
      some (s, [ClientMsg.state_update pf.holdings pf.cash s.prices
        s.market_open]) := by
  cases hp' : dget? s.prices o.symbol with
  | none => rw [hp'] at hp; simp at hp
  | some price => simp [process_order, hpf, hp', hb, hs, send_state_update]

/-- C10 witness at a concrete unknown action ("hold"). -/
theorem C10_unknown_action_witness :
    process_order demoState "c" ⟨"hold", "AAPL", 3⟩ =
      some (demoState,
        [ClientMsg.state_update [] 10000 [("AAPL", 150)] true]) :=
  C10_unknown_action demoState "c" ⟨"hold", "AAPL", 3⟩ ⟨10000, []⟩
    (by decide) (by decide) (by decide) (by decide)

/-- C3: a rejected order mutates nothing.  Whenever `process_order`
sends an error message (for any of its rejection reasons: unknown
symbol, insufficient funds, insufficient shares), the returned state —
cash, holdings and the price table — is exactly the input state. -/
theorem C3_rejected_no_mutation (s : TradingState) (cid : String)
    (o : Order) (s' : TradingState) (msgs : List ClientMsg)
    (hrun : process_order s cid o = some (s', msgs))
    (herr : hasError msgs = true) :
    s' = s := by
  cases hpf : dget? s.portfolios cid with
  | none => simp [process_order, hpf] at hrun
  | some pf =>
      cases hp : dget? s.prices o.symbol with
      | none =>
          simp [process_order, hpf, hp] at hrun
          exact hrun.1.symm
      | some price =>
          by_cases hb : o.action = "buy"
          · by_cases hc : price * (o.quantity : ℚ) ≤ pf.cash
            · simp [process_order, hpf, hp, hb, hc, send_state_update]
                at hrun
              rw [← hrun.2] at herr
              simp [hasError] at herr
            · simp [process_order, hpf, hp, hb, hc, send_state_update]
                at hrun
              exact hrun.1.symm
          · by_cases hs : o.action = "sell"
            · cases hh : dget? pf.holdings o.symbol with
              | none =>
                  simp [process_order, hpf, hp, hb, hs, hh,
                    send_state_update] at hrun
                  exact hrun.1.symm
              | some held =>
                  by_cases hq : o.quantity ≤ held
                  · simp [process_order, hpf, hp, hb, hs, hh, hq,
                      send_state_update] at hrun
                    rw [← hrun.2] at herr
                    simp [hasError] at herr
                  · simp [process_order, hpf, hp, hb, hs, hh, hq,
                      send_state_update] at hrun
                    exact hrun.1.symm
            · simp [process_order, hpf, hp, hb, hs, send_state_update]
                at hrun
              rw [← hrun.2] at herr
              simp [hasError] at herr

/-- C3 witness: a concrete rejection (insufficient funds: cost 15000 >
cash 10000) sends an error and leaves the state untouched. -/
theorem C3_rejected_no_mutation_witness :
    process_order demoState "c" ⟨"buy", "AAPL", 100⟩ =
      some (demoState, [ClientMsg.error "Insufficient funds",
        ClientMsg.state_update [] 10000 [("AAPL", 150)] true]) ∧
    demoState = demoState := by
  refine ⟨by decide, ?_⟩
  exact C3_rejected_no_mutation demoState "c" ⟨"buy", "AAPL", 100⟩ demoState
    [ClientMsg.error "Insufficient funds",
     ClientMsg.state_update [] 10000 [("AAPL", 150)] true]
    (by decide) (by decide)

/-- C2 counterexample: `process_order` has no quantity validation and
no `InvalidQuantity` rejection.  A buy of quantity 0 — not a positive
integer — produces an order CONFIRMATION and mutates the ledger (the
holdings dict gains the key "AAPL" with value 0). -/
theorem C2_counterexample :
    process_order demoState "c" ⟨"buy", "AAPL", 0⟩ =
      some (⟨[("AAPL", 150)], [("c", ⟨10000, [("AAPL", 0)]⟩)], true, ["c"]⟩,
        [ClientMsg.order_confirmation "buy" "AAPL" 0 150,
         ClientMsg.state_update [("AAPL", 0)] 10000 [("AAPL", 150)] true]) := by
  decide

/-- C2 amended: quantity is never validated.  A buy whose quantity is
zero or negative (with a registered client, a priced symbol, nonnegative
cash and a nonnegative price) is confirmed — its cost `p*q ≤ 0` always
passes the funds check — and the ledger mutates: cash becomes
`cash - p*q ≥ cash`, so a negative quantity manufactures money. -/
theorem C2_nonpositive_buy_confirmed (s : TradingState) (cid sym : String)
    (q : ℤ) (pf : Portfolio) (p : ℚ)
    (hpf : dget? s.portfolios cid = some pf)
    (hp : dget? s.prices sym = some p)
    (hq : q ≤ 0) (hcash : 0 ≤ pf.cash) (hprice : 0 ≤ p) :
    ∃ s' msgs, process_order s cid ⟨"buy", sym, q⟩ = some (s', msgs) ∧
      isConfirmed msgs = true ∧
      ∃ pf', dget? s'.portfolios cid = some pf' ∧
        pf'.cash = pf.cash - p * (q : ℚ) ∧ pf.cash ≤ pf'.cash := by
  have hq' : ((q : ℤ) : ℚ) ≤ 0 := by exact_mod_cast hq
  have hcost : p * (q : ℚ) ≤ 0 := mul_nonpos_of_nonneg_of_nonpos hprice hq'
  have hc : p * (q : ℚ) ≤ pf.cash := le_trans hcost hcash
  obtain ⟨pf', heq, hcashpf, _⟩ :=
    process_order_buy_success s cid ⟨"buy", sym, q⟩ pf p hpf hp rfl hc
  refine ⟨_, _, heq, by simp [isConfirmed], pf', by simp, hcashpf, ?_⟩
  rw [hcashpf]
  linarith

/-- C2 witness: buying quantity −1 of AAPL at 150 is confirmed and
raises cash from 10000 to 10150. -/
theorem C2_nonpositive_buy_confirmed_witness :
    ∃ s' msgs, process_order demoState "c" ⟨"buy", "AAPL", -1⟩ =
        some (s', msgs) ∧
      isConfirmed msgs = true ∧
      ∃ pf', dget? s'.portfolios "c" = some pf' ∧
        pf'.cash = 10000 - 150 * ((-1 : ℤ) : ℚ) ∧ (10000 : ℚ) ≤ pf'.cash := by
  exact C2_nonpositive_buy_confirmed demoState "c" "AAPL" (-1) ⟨10000, []⟩ 150
    (by decide) (by decide) (by decide) (by decide) (by decide)

/-- C4: with the market open, a registered client and a priced symbol,
a buy of quantity q at stored price p is confirmed iff `p*q ≤ cash`
(so the boundary `cash = p*q` is confirmed); on confirmation cash drops
by exactly `p*q` and the holding in the symbol rises by exactly q; on
rejection the state is unchanged and an error is sent. -/
theorem C4_buy_iff (s : TradingState) (cid : String) (o : Order)
    (pf : Portfolio) (price : ℚ)
    (hpf : dget? s.portfolios cid = some pf)
    (hp : dget? s.prices o.symbol = some price)
    (_hopen : s.market_open = true)
    (hb : o.action = "buy") :
    ∃ s' msgs, process_order s cid o = some (s', msgs) ∧
      (isConfirmed msgs = true ↔ price * (o.quantity : ℚ) ≤ pf.cash) ∧
      (price * (o.quantity : ℚ) ≤ pf.cash →
        ∃ pf', dget? s'.portfolios cid = some pf' ∧
          pf'.cash = pf.cash - price * (o.quantity : ℚ) ∧
          dgetD pf'.holdings o.symbol 0 =
            dgetD pf.holdings o.symbol 0 + o.quantity) ∧
      (¬ price * (o.quantity : ℚ) ≤ pf.cash →
        s' = s ∧ hasError msgs = true) := by
  by_cases hc : price * (o.quantity : ℚ) ≤ pf.cash
  · obtain ⟨pf', heq, hcash, hhold⟩ :=
      process_order_buy_success s cid o pf price hpf hp hb hc
    refine ⟨_, _, heq, by simp [isConfirmed, hc], ?_, ?_⟩
    · intro _
      exact ⟨pf', by simp, hcash, hhold⟩
    · intro h
      exact absurd hc h
  · refine ⟨s, [ClientMsg.error "Insufficient funds",
      ClientMsg.state_update pf.holdings pf.cash s.prices s.market_open],
      ?_, ?_, ?_, ?_⟩
    · simp [process_order, hpf, hp, hb, hc, send_state_update]
    · simp [isConfirmed, hc]
    · intro h
      exact absurd h hc
    · intro _
      exact ⟨rfl, by simp [hasError]⟩

/-- C4 witness at the boundary: price 100, quantity 100, cash exactly
10000 —  the buy is confirmed and cash drops to 0. -/
theorem C4_buy_iff_witness :
    ∃ s' msgs,
      process_order ⟨[("AAPL", 100)], [("c", ⟨10000, []⟩)], true, ["c"]⟩ "c"
          ⟨"buy", "AAPL", 100⟩ = some (s', msgs) ∧
      isConfirmed msgs = true ∧
      ∃ pf', dget? s'.portfolios "c" = some pf' ∧ pf'.cash = 0 := by
  obtain ⟨s', msgs, heq, hiff, hpos, _⟩ :=
    C4_buy_iff ⟨[("AAPL", 100)], [("c", ⟨10000, []⟩)], true, ["c"]⟩ "c"
      ⟨"buy", "AAPL", 100⟩ ⟨10000, []⟩ 100 (by decide) (by decide) rfl rfl
  obtain ⟨pf', hlook, hcash, _⟩ := hpos (by decide)
  exact ⟨s', msgs, heq, hiff.mpr (by decide), pf', hlook, by
    rw [hcash]; decide⟩

/-- C5: a sell of positive quantity q (registered client, priced
symbol, holdings keys unique as in a Python dict) is confirmed iff the
session holds at least q of the symbol — reading a missing key as 0 —
so the boundary `holdings[symbol] = q` is confirmed and afterwards the
session's holding in the symbol reads 0 (the code removes the zero
key); on confirmation cash rises by exactly `p*q`; on rejection the
state is unchanged and an error is sent. -/
theorem C5_sell_iff (s : TradingState) (cid : String) (o : Order)
    (pf : Portfolio) (price : ℚ)
    (hpf : dget? s.portfolios cid = some pf)
    (hp : dget? s.prices o.symbol = some price)
    (hs : o.action = "sell")
    (hq : 0 < o.quantity)
    (hnd : (pf.holdings.map Prod.fst).Nodup) :
    ∃ s' msgs, process_order s cid o = some (s', msgs) ∧
      (isConfirmed msgs = true ↔ o.quantity ≤ dgetD pf.holdings o.symbol 0) ∧
      (o.quantity ≤ dgetD pf.holdings o.symbol 0 →
        ∃ pf', dget? s'.portfolios cid = some pf' ∧
          pf'.cash = pf.cash + price * (o.quantity : ℚ) ∧
          dgetD pf'.holdings o.symbol 0 =
            dgetD pf.holdings o.symbol 0 - o.quantity) ∧
      (¬ o.quantity ≤ dgetD pf.holdings o.symbol 0 →
        s' = s ∧ hasError msgs = true) := by
  have hbuy : o.action ≠ "buy" := by rw [hs]; decide
  cases hh : dget? pf.holdings o.symbol with
  | none =>
      have hno : ¬ o.quantity ≤ dgetD pf.holdings o.symbol 0 := by
        simp [dgetD, hh]
        omega
      refine ⟨s, [ClientMsg.error "Insufficient shares",
        ClientMsg.state_update pf.holdings pf.cash s.prices s.market_open],
        ?_, ?_, ?_, ?_⟩
      · simp [process_order, hpf, hp, hbuy, hs, hh, send_state_update]
      · simp [isConfirmed, hno]
      · intro h
        exact absurd h hno
      · intro _
        exact ⟨rfl, by simp [hasError]⟩
  | some held =>
      have hd : dgetD pf.holdings o.symbol 0 = held := by simp [dgetD, hh]
      by_cases hq2 : o.quantity ≤ held
      · obtain ⟨pf', heq, hcash, hhold⟩ :=
          process_order_sell_success s cid o pf price held hpf hp hs hh hq2
        refine ⟨_, _, heq, by simp [isConfirmed, hd, hq2], ?_, ?_⟩
        · intro _
          exact ⟨pf', by simp, hcash, by rw [hhold hnd, hd]⟩
        · intro h
          rw [hd] at h
          exact absurd hq2 h
      · refine ⟨s, [ClientMsg.error "Insufficient shares",
          ClientMsg.state_update pf.holdings pf.cash s.prices
            s.market_open], ?_, ?_, ?_, ?_⟩
        · simp [process_order, hpf, hp, hbuy, hs, hh, hq2, send_state_update]
        · simp [isConfirmed, hd, hq2]
        · intro h
          rw [hd] at h
          exact absurd h hq2
        · intro _
          exact ⟨rfl, by simp [hasError]⟩

/-- C5 witness at the boundary: holding exactly 10 AAPL and selling
10 is confirmed, cash rises 10000 → 11500, and the holding reads 0. -/
theorem C5_sell_iff_witness :
    ∃ s' msgs,
      process_order ⟨[("AAPL", 150)], [("c", ⟨10000, [("AAPL", 10)]⟩)],
          true, ["c"]⟩ "c" ⟨"sell", "AAPL", 10⟩ = some (s', msgs) ∧
      isConfirmed msgs = true ∧
      ∃ pf', dget? s'.portfolios "c" = some pf' ∧
        pf'.cash = 11500 ∧ dgetD pf'.holdings "AAPL" 0 = 0 := by
  obtain ⟨s', msgs, heq, hiff, hpos, _⟩ :=
    C5_sell_iff ⟨[("AAPL", 150)], [("c", ⟨10000, [("AAPL", 10)]⟩)], true,
        ["c"]⟩ "c" ⟨"sell", "AAPL", 10⟩ ⟨10000, [("AAPL", 10)]⟩ 150
      (by decide) (by decide) rfl (by decide) (by decide)
  obtain ⟨pf', hlook, hcash, hhold⟩ := hpos (by decide)
  refine ⟨s', msgs, heq, hiff.mpr (by decide), pf', hlook, ?_, ?_⟩
  · rw [hcash]; decide
  · rw [hhold]; decide

theorem signed_notional_sum_append (a b : List (String × String × ℤ × ℚ)) :
    signed_notional_sum (a ++ b) =
      signed_notional_sum a + signed_notional_sum b := by
  induction a with
  | nil => simp [signed_notional_sum]
  | cons t ts ih => simp [signed_notional_sum, ih]; ring

theorem confirmations_append (a b : List ClientMsg) :
    confirmations (a ++ b) = confirmations a ++ confirmations b := by
  simp [confirmations]

/-- One `process_order` call conserves money: the client's new cash
plus the signed notional of the trades confirmed in its reply equals
the old cash — rejections contribute an empty trade list. -/
theorem process_order_cash_step (s : TradingState) (cid : String)
    (o : Order) (pf : Portfolio) (s' : TradingState) (msgs : List ClientMsg)
    (hpf : dget? s.portfolios cid = some pf)
    (hrun : process_order s cid o = some (s', msgs)) :
    ∃ pf', dget? s'.portfolios cid = some pf' ∧
      pf'.cash + signed_notional_sum (confirmations msgs) = pf.cash := by
  cases hp : dget? s.prices o.symbol with
  | none =>
      simp [process_order, hpf, hp] at hrun
      refine ⟨pf, ?_, ?_⟩
      · rw [← hrun.1]; exact hpf
      · rw [← hrun.2]; simp [confirmations, signed_notional_sum]
  | some price =>
      by_cases hb : o.action = "buy"
      · by_cases hc : price * (o.quantity : ℚ) ≤ pf.cash
        · obtain ⟨pf', heq, hcash, _⟩ :=
            process_order_buy_success s cid o pf price hpf hp hb hc
          rw [heq] at hrun
          simp only [Option.some.injEq, Prod.mk.injEq] at hrun
          refine ⟨pf', ?_, ?_⟩
          · rw [← hrun.1]; simp
          · rw [← hrun.2]
            simp [confirmations, signed_notional_sum, hcash]
            try ring
        · simp [process_order, hpf, hp, hb, hc, send_state_update] at hrun
          refine ⟨pf, ?_, ?_⟩
          · rw [← hrun.1]; exact hpf
          · rw [← hrun.2]; simp [confirmations, signed_notional_sum]
      · by_cases hs : o.action = "sell"
        · cases hh : dget? pf.holdings o.symbol with
          | none =>
              simp [process_order, hpf, hp, hb, hs, hh,
                send_state_update] at hrun
              refine ⟨pf, ?_, ?_⟩
              · rw [← hrun.1]; exact hpf
              · rw [← hrun.2]; simp [confirmations, signed_notional_sum]
          | some held =>
              by_cases hq : o.quantity ≤ held
              · obtain ⟨pf', heq, hcash, _⟩ :=
                  process_order_sell_success s cid o pf price held hpf hp
                    hs hh hq
                rw [heq] at hrun
                simp only [Option.some.injEq, Prod.mk.injEq] at hrun
                refine ⟨pf', ?_, ?_⟩
                · rw [← hrun.1]; simp
                · rw [← hrun.2]
                  simp [confirmations, signed_notional_sum, hcash]
                  try ring
              · simp [process_order, hpf, hp, hb, hs, hh, hq,
                  send_state_update] at hrun
                refine ⟨pf, ?_, ?_⟩
                · rw [← hrun.1]; exact hpf
                · rw [← hrun.2]; simp [confirmations, signed_notional_sum]
        · simp [process_order, hpf, hp, hb, hs, send_state_update] at hrun
          refine ⟨pf, ?_, ?_⟩
          · rw [← hrun.1]; exact hpf
          · rw [← hrun.2]; simp [confirmations, signed_notional_sum]

/-- C6 counterexample: the claim's sign convention (notional positive
for sells, negative for buys) fails on a single confirmed buy: starting
cash is 10000, but final cash plus that signed sum is 7000, not 10000.
(The opposite convention, proved below, does balance.) -/
theorem C6_counterexample :
    final_cash demoState "c" = 10000 ∧
    ¬ (final_cash (run_orders demoState "c" [⟨"buy", "AAPL", 10⟩]).1 "c" +
        claim_notional_sum
          (confirmations (run_orders demoState "c" [⟨"buy", "AAPL", 10⟩]).2)
        = 10000) := by
  decide

/-- C6 amended: conservation with the corrected sign convention.  For
every registered session and every finite order sequence, final cash
plus the sum of execution-time notionals of the confirmed trades —
signed positive for buys, negative for sells — equals the initial
cash; rejected orders contribute nothing to the sum. -/
theorem C6_conservation (s : TradingState) (cid : String)
    (os : List Order) (pf : Portfolio)
    (hpf : dget? s.portfolios cid = some pf) :
    ∃ pf', dget? (run_orders s cid os).1.portfolios cid = some pf' ∧
      pf'.cash +
        signed_notional_sum (confirmations (run_orders s cid os).2) =
        pf.cash := by
  induction os generalizing s pf with
  | nil =>
      exact ⟨pf, by simpa [run_orders] using hpf,
        by simp [run_orders, confirmations, signed_notional_sum]⟩
  | cons o os ih =>
      cases hrun : process_order s cid o with
      | none =>
          refine ⟨pf, ?_, ?_⟩
          · simpa [run_orders, hrun] using hpf
          · simp [run_orders, hrun, confirmations, signed_notional_sum]
      | some r =>
          obtain ⟨s1, msgs⟩ := r
          obtain ⟨pf1, hpf1, hstep⟩ :=
            process_order_cash_step s cid o pf s1 msgs hpf hrun
          obtain ⟨pf2, hpf2, hsum⟩ := ih s1 pf1 hpf1
          refine ⟨pf2, ?_, ?_⟩
          · simpa [run_orders, hrun] using hpf2
          · have hsplit :
                (run_orders s cid (o :: os)).2 =
                  msgs ++ (run_orders s1 cid os).2 := by
              simp [run_orders, hrun]
            rw [hsplit, confirmations_append, signed_notional_sum_append]
            have h1 :
                (run_orders s cid (o :: os)).1 =
                  (run_orders s1 cid os).1 := by
              simp [run_orders, hrun]
            linarith

/-- C6 witness: a buy of 10 then a sell of 5 in the demo state —
the instantiated conservation equation with initial cash 10000. -/
theorem C6_conservation_witness :
    ∃ pf', dget? (run_orders demoState "c"
        [⟨"buy", "AAPL", 10⟩, ⟨"sell", "AAPL", 5⟩]).1.portfolios "c" =
        some pf' ∧
      pf'.cash + signed_notional_sum (confirmations (run_orders demoState
        "c" [⟨"buy", "AAPL", 10⟩, ⟨"sell", "AAPL", 5⟩]).2) = 10000 :=
  C6_conservation demoState "c"
    [⟨"buy", "AAPL", 10⟩, ⟨"sell", "AAPL", 5⟩] ⟨10000, []⟩ (by decide)

/-- C7 counterexample: connect a client to the empty initial state,
then let its transport disconnect.  The transport entry is gone, but
the session's cash/holdings ledger is still in `state.portfolios` and
a lookup still succeeds — the registry is NOT fully purged, contrary
to the claim that both entries are removed and lookups fail. -/
theorem C7_counterexample :
    (websocket_disconnect (websocket_connect initState "c1")
        "c1").connected_clients = [] ∧
    dget? (websocket_disconnect (websocket_connect initState "c1")
        "c1").portfolios "c1" = some ⟨10000, []⟩ := by
  decide

/-- C7 amended: a disconnect removes exactly the transport entry: the
portfolio ledger and the price table are untouched, the client id
disappears from the connected-transport list (its ids are unique, one
per `uuid4` connect), and nothing else changes. -/
theorem C7_disconnect_transport_only (s : TradingState) (cid : String) :
    (websocket_disconnect s cid).portfolios = s.portfolios ∧
    (websocket_disconnect s cid).prices = s.prices ∧
    (websocket_disconnect s cid).connected_clients =
      s.connected_clients.erase cid ∧
    (s.connected_clients.Nodup →
      cid ∉ (websocket_disconnect s cid).connected_clients) :=
  ⟨rfl, rfl, rfl, fun h => h.not_mem_erase⟩

/-- C7 witness: the amended statement at the connected demo client. -/
theorem C7_disconnect_transport_only_witness :
    (websocket_disconnect demoState "c").portfolios =
      demoState.portfolios ∧
    (websocket_disconnect demoState "c").prices = demoState.prices ∧
    (websocket_disconnect demoState "c").connected_clients =
      demoState.connected_clients.erase "c" ∧
    "c" ∉ (websocket_disconnect demoState "c").connected_clients :=
  ⟨(C7_disconnect_transport_only demoState "c").1,
   (C7_disconnect_transport_only demoState "c").2.1,
   (C7_disconnect_transport_only demoState "c").2.2.1,
   (C7_disconnect_transport_only demoState "c").2.2.2 (by decide)⟩

/-- C8 counterexample: a payload that is valid JSON but has no "type"
field is NOT logged-and-dropped: `data["type"]` raises `KeyError`,
which escapes `handle_market_message` (only `json.JSONDecodeError` is
caught) and makes `connect_to_market` tear down and re-establish the
upstream connection. -/
theorem C8_counterexample :
    handle_market_message demoState
        (some (Json.jobj [("symbol", Json.jstr "AAPL")])) =
      (demoState, FeedResult.raised "KeyError: type") ∧
    connect_to_market_reaction (FeedResult.raised "KeyError: type") =
      GatewayReaction.drop_and_reconnect := by
  exact ⟨rfl, rfl⟩

/-- C8 amended: only messages that fail JSON decoding are logged and
dropped (no state change, connection kept); a decoded payload that
makes the handler raise (missing "type", or missing "symbol"/"price"
on a price update, or a non-object payload) leaves market state
unmutated but escapes the handler, and the gateway drops and
re-establishes the upstream connection. -/
theorem C8_malformed_feed (s : TradingState) :
    (handle_market_message s none = (s, FeedResult.dropped_parse_error) ∧
     connect_to_market_reaction FeedResult.dropped_parse_error =
       GatewayReaction.keep_connection) ∧
    ∀ (j : Json) (e : String),
      (handle_market_message s (some j)).2 = FeedResult.raised e →
      (handle_market_message s (some j)).1 = s ∧
      connect_to_market_reaction (FeedResult.raised e) =
        GatewayReaction.drop_and_reconnect := by
  refine ⟨⟨rfl, rfl⟩, ?_⟩
  intro j e hr
  refine ⟨?_, rfl⟩
  unfold handle_market_message at hr ⊢
  cases ht : jget j "type" with
  | error e' => simp [ht]
  | ok t =>
      simp only [ht] at hr ⊢
      by_cases h1 : jeqStr t "market_open" = true
      · simp [h1] at hr
      · by_cases h2 : jeqStr t "market_close" = true
        · simp [h1, h2] at hr
        · by_cases h3 : jeqStr t "price_update" = true
          · simp only [h1, h2, h3, Bool.false_eq_true, if_false,
              if_true] at hr ⊢
            cases hsym : jget j "symbol" with
            | error e' => simp [hsym]
            | ok symJ =>
                simp only [hsym] at hr ⊢
                cases hpr : jget j "price" with
                | error e' => simp [hpr]
                | ok priceJ =>
                    simp only [hpr] at hr ⊢
                    cases symJ <;> cases priceJ <;> simp_all
          · simp [h1, h2, h3] at hr

/-- C8 witness: the amended statement at the no-"type" payload. -/
theorem C8_malformed_feed_witness :
    (handle_market_message demoState
        (some (Json.jobj [("symbol", Json.jstr "AAPL")]))).1 = demoState ∧
    connect_to_market_reaction (FeedResult.raised "KeyError: type") =
      GatewayReaction.drop_and_reconnect :=
  (C8_malformed_feed demoState).2 (Json.jobj [("symbol", Json.jstr "AAPL")])
    "KeyError: type" rfl

theorem process_order_events_locked (s : TradingState) (cid : String)
    (o : Order) (mws : Bool) :
    mutationsLocked (process_order_events s cid o mws) 0 = true ∧
    sendsLocked (process_order_events s cid o mws) 0 = true := by
  unfold process_order_events
  split
  · decide
  · split
    · decide
    · split
      · split
        · cases mws <;> decide
        · decide
      · split
        · split
          · cases mws <;> decide
          · decide
        · decide

theorem handle_market_message_events_locked (msg : Option Json) :
    mutationsLocked (handle_market_message_events msg) 0 = true ∧
    sendsLocked (handle_market_message_events msg) 0 = true := by
  unfold handle_market_message_events
  split
  · decide
  · split
    · decide
    · split
      · decide
      · split
        · split
          · decide
          · decide
          · decide
        · decide

/-- C9 counterexample: the critical section is NOT released before
network sends.  On a concrete confirmed buy, `process_order` issues
its sends (order confirmation, upstream `order_placed` relay) while
`state.lock` is still held, refuting the claim that the
mutual-exclusion region "is released before any network send is
issued". -/
theorem C9_counterexample :
    anySendLocked
      (process_order_events demoState "c" ⟨"buy", "AAPL", 10⟩ true) 0 =
      true := by
  decide

/-- C9 amended: one coarse lock does serialize the engine — every
mutation of the shared state in `process_order` and in
`handle_market_message` happens while `state.lock` is held — but the
network sends are issued inside the critical section as well
(confirmations, rejections, the upstream relay and the broadcast all
happen before release; only the trailing full state update runs in a
second lock region of its own, whose send is also inside it). -/
theorem C9_lock_discipline (s : TradingState) (cid : String) (o : Order)
    (mws : Bool) :
    mutationsLocked (process_order_events s cid o mws) 0 = true ∧
    sendsLocked (process_order_events s cid o mws) 0 = true ∧
    ∀ msg : Option Json,
      mutationsLocked (handle_market_message_events msg) 0 = true ∧
      sendsLocked (handle_market_message_events msg) 0 = true :=
  ⟨(process_order_events_locked s cid o mws).1,
   (process_order_events_locked s cid o mws).2,
   fun msg => handle_market_message_events_locked msg⟩
